import Mathlib

/-!
Shallow embedding of `sval`'s fixed-size stream-structure validator
(`stack/src/stack2.rs`) and proofs about it.

The Rust code packs the states of all currently-open frames into a single
`u64` (`RawStack`), five bits per frame, together with an explicit `u8`
depth counter.  We model `u64` and `u8` values as `Nat`, applying
`% 2 ^ 64` (resp. `% 256`) exactly where the Rust arithmetic can wrap:
the left shift in `map_begin`/`seq_begin` and the depth counter updates.
Rust's `&`, `|`, `^`, `<<`, `>>` become `&&&`, `|||`, `^^^`, `<<<`, `>>>`.
Fallible operations take the receiver and return the `Result` paired with
the post-call receiver state, mirroring `&mut self` methods: on the error
paths the Rust code performs no mutation, so the returned state is the
input state.
-/

namespace Sval

/-- Validation error carrying the static expectation message that
`crate::Error::custom` receives in the Rust source. -/
structure Error where
  msg : String
deriving DecidableEq, Repr

/-- Mirrors `crate::Error::custom(&"...")`. -/
def Error.custom (m : String) : Error := ⟨m⟩

-- The `Slot` bit constants from `stack2.rs`.
namespace Slot

def IS_EMPTY : Nat := 0b00000000
def IS_MAP_KEY : Nat := 0b00000010
def IS_MAP_VALUE : Nat := 0b00000110
def IS_SEQ_ELEM : Nat := 0b00001000

def MASK_VALUE_ELEM : Nat := 0b00001100

def NEEDS_ITEM : Nat := 0b00000001
def NEEDS_MAP_KEY : Nat := 0b00000100
def NEEDS_MAP_VALUE : Nat := 0b00000010
def NEEDS_SEQ_ELEM : Nat := 0b00001000

/-- Constant `Slot::BITS = 5`: each frame occupies five bits of the raw stack. -/
def BITS : Nat := 5

/-- Constant `u8::MAX >> (u8::BITS - Slot::BITS)` = `0b11111`. -/
def MASK_SLOT : Nat := 255 >>> (8 - BITS)

end Slot

/-- The depth of a position (`struct Depth(usize)`). -/
structure Depth where
  val : Nat
deriving DecidableEq, Repr

/-- Mirrors `struct Pos(RawStack, u8)`: a snapshot of the packed stack and the
depth at the moment of a successful transition. -/
structure Pos where
  raw : Nat
  d : Nat
deriving DecidableEq, Repr

/-- Mirrors `Pos::is_key`: `(self.0 as u8) & Slot::MASK_SLOT == Slot::IS_MAP_KEY`. -/
def Pos.is_key (p : Pos) : Bool :=
  (p.raw % 256) &&& Slot.MASK_SLOT == Slot.IS_MAP_KEY

/-- Mirrors `Pos::is_value`. -/
def Pos.is_value (p : Pos) : Bool :=
  (p.raw % 256) &&& Slot.MASK_SLOT == Slot.IS_MAP_VALUE

/-- Mirrors `Pos::is_elem`. -/
def Pos.is_elem (p : Pos) : Bool :=
  (p.raw % 256) &&& Slot.MASK_SLOT == Slot.IS_SEQ_ELEM

/-- Mirrors `Pos::is_value_elem`: `(self.0 as u8) & Slot::MASK_VALUE_ELEM != 0`. -/
def Pos.is_value_elem (p : Pos) : Bool :=
  (p.raw % 256) &&& Slot.MASK_VALUE_ELEM != 0

/-- In the source `Pos::is_empty_map` is `unimplemented!()`: the call
unconditionally panics and never produces a `bool`.  The panic is modelled
as `none`; there is no input for which a boolean is returned. -/
def Pos.is_empty_map (_ : Pos) : Option Bool := none

/-- Likewise `Pos::is_empty_seq` is `unimplemented!()`: modelled as `none`
on every input. -/
def Pos.is_empty_seq (_ : Pos) : Option Bool := none

/-- Mirrors `Pos::depth`: `Depth(self.1 as usize)`. -/
def Pos.depth (p : Pos) : Depth := ⟨p.d⟩

/-- Mirrors `struct Stack { inner: RawStack, depth: u8 }`.  `inner` models the
`u64`, `depth` the `u8`; every operation keeps `inner < 2 ^ 64`. -/
structure Stack where
  inner : Nat
  depth : Nat
deriving DecidableEq, Repr

namespace Stack

/-- Constant `Stack::BITS = RawStack::BITS = 64`. -/
def BITS : Nat := 64

/-- Constant `Stack::MAX_DEPTH = Self::BITS / Slot::BITS = 12`. -/
def MAX_DEPTH : Nat := BITS / Slot.BITS

/-- Constant `(RawStack::MAX << Slot::BITS) ^ ((Slot::NEEDS_ITEM as RawStack) << Slot::BITS)`:
clears the six low bits of a shifted stack (the new empty slot plus the
parent's consumed `NEEDS_ITEM` bit). -/
def MASK_SLOT_BEGIN : Nat :=
  (((2 ^ 64 - 1) <<< Slot.BITS) % 2 ^ 64) ^^^
    ((Slot.NEEDS_ITEM <<< Slot.BITS) % 2 ^ 64)

/-- Mirrors `Stack::new()`. -/
def new : Stack := ⟨Slot.NEEDS_ITEM, 0⟩

/-- Mirrors `Stack::clear`: `*self = Stack::new()`. -/
def clear (_ : Stack) : Stack := new

/-- Mirrors `Stack::primitive`. -/
def primitive (s : Stack) : Except Error Pos × Stack :=
  if (s.inner % 256) &&& (Slot.MASK_SLOT &&& Slot.NEEDS_ITEM) = Slot.NEEDS_ITEM then
    let inner := s.inner ^^^ Slot.NEEDS_ITEM
    (Except.ok ⟨inner, s.depth⟩, ⟨inner, s.depth⟩)
  else
    (Except.error (Error.custom ("a primitive")), s)

/-- Mirrors `Stack::map_begin`.  The depth guard is checked before the slot
guard, exactly as in the source. -/
def map_begin (s : Stack) : Except Error Pos × Stack :=
  if s.depth = MAX_DEPTH then
    (Except.error (Error.custom ("more depth at the start of a map")), s)
  else if (s.inner % 256) &&& (Slot.MASK_SLOT &&& Slot.NEEDS_ITEM) = Slot.NEEDS_ITEM then
    let inner :=
      ((s.inner <<< Slot.BITS) % 2 ^ 64) &&& MASK_SLOT_BEGIN |||
        (Slot.NEEDS_MAP_KEY ||| Slot.NEEDS_MAP_VALUE)
    let depth := (s.depth + 1) % 256
    (Except.ok ⟨inner, depth⟩, ⟨inner, depth⟩)
  else
    (Except.error (Error.custom ("the start of a map")), s)

/-- Mirrors `Stack::map_key`. -/
def map_key (s : Stack) : Except Error Pos × Stack :=
  if (s.inner % 256) &&& Slot.MASK_SLOT = Slot.NEEDS_MAP_KEY ||| Slot.NEEDS_MAP_VALUE then
    let inner := s.inner ^^^ (Slot.NEEDS_MAP_KEY ||| Slot.NEEDS_ITEM)
    (Except.ok ⟨inner, s.depth⟩, ⟨inner, s.depth⟩)
  else
    (Except.error (Error.custom ("a map key")), s)

/-- Mirrors `Stack::map_value`. -/
def map_value (s : Stack) : Except Error Pos × Stack :=
  if (s.inner % 256) &&& Slot.MASK_SLOT = Slot.NEEDS_MAP_VALUE then
    let inner := s.inner ^^^ (Slot.NEEDS_MAP_KEY ||| Slot.NEEDS_ITEM)
    (Except.ok ⟨inner, s.depth⟩, ⟨inner, s.depth⟩)
  else
    (Except.error (Error.custom ("a map value")), s)

/-- Mirrors `Stack::map_end`.  `self.depth -= 1` is `u8` arithmetic, modelled by
wrapping subtraction. -/
def map_end (s : Stack) : Except Error Pos × Stack :=
  if (s.inner % 256) &&& Slot.MASK_SLOT = Slot.NEEDS_MAP_KEY ||| Slot.NEEDS_MAP_VALUE then
    let inner := s.inner >>> Slot.BITS
    let depth := (s.depth + 255) % 256
    (Except.ok ⟨inner, depth⟩, ⟨inner, depth⟩)
  else
    (Except.error (Error.custom ("the end of a map")), s)

/-- Mirrors `Stack::seq_begin`. -/
def seq_begin (s : Stack) : Except Error Pos × Stack :=
  if s.depth = MAX_DEPTH then
    (Except.error (Error.custom ("more depth at the start of a sequence")), s)
  else if (s.inner % 256) &&& (Slot.MASK_SLOT &&& Slot.NEEDS_ITEM) = Slot.NEEDS_ITEM then
    let inner :=
      ((s.inner <<< Slot.BITS) % 2 ^ 64) &&& MASK_SLOT_BEGIN ||| Slot.NEEDS_SEQ_ELEM
    let depth := (s.depth + 1) % 256
    (Except.ok ⟨inner, depth⟩, ⟨inner, depth⟩)
  else
    (Except.error (Error.custom ("the start of a sequence")), s)

/-- Mirrors `Stack::seq_elem`. -/
def seq_elem (s : Stack) : Except Error Pos × Stack :=
  if (s.inner % 256) &&& Slot.MASK_SLOT = Slot.NEEDS_SEQ_ELEM then
    let inner := s.inner ||| Slot.NEEDS_ITEM
    (Except.ok ⟨inner, s.depth⟩, ⟨inner, s.depth⟩)
  else
    (Except.error (Error.custom ("a sequence element")), s)

/-- Mirrors `Stack::seq_end`. -/
def seq_end (s : Stack) : Except Error Pos × Stack :=
  if (s.inner % 256) &&& Slot.MASK_SLOT = Slot.NEEDS_SEQ_ELEM then
    let inner := s.inner >>> Slot.BITS
    let depth := (s.depth + 255) % 256
    (Except.ok ⟨inner, depth⟩, ⟨inner, depth⟩)
  else
    (Except.error (Error.custom ("the end of a sequence")), s)

/-- Mirrors `Stack::can_end`: `depth == 0 && inner as u8 & !Slot::NEEDS_ITEM == Slot::IS_EMPTY`.
`!Slot::NEEDS_ITEM` on `u8` is `255 ^^^ NEEDS_ITEM`. -/
def can_end (s : Stack) : Bool :=
  s.depth == 0 && (s.inner % 256) &&& (255 ^^^ Slot.NEEDS_ITEM) == Slot.IS_EMPTY

/-- Mirrors `Stack::end`. -/
def «end» (s : Stack) : Except Error Unit × Stack :=
  if s.can_end then
    (Except.ok (), s)
  else
    (Except.error (Error.custom ("the end of the stream")), s)

end Stack

/-- One structural event of the stream protocol: each constructor names the
`Stack` method the producer-facing driver would call (`end` excluded, since
it is the terminal query rather than a structural event). -/
inductive Event
  | primitive | map_begin | map_key | map_value | map_end
  | seq_begin | seq_elem | seq_end
deriving DecidableEq, Repr

/-- Dispatch one event to the corresponding `Stack` method. -/
def Stack.step (s : Stack) : Event → Except Error Pos × Stack
  | .primitive => s.primitive
  | .map_begin => s.map_begin
  | .map_key => s.map_key
  | .map_value => s.map_value
  | .map_end => s.map_end
  | .seq_begin => s.seq_begin
  | .seq_elem => s.seq_elem
  | .seq_end => s.seq_end

/-- Feed a list of events to the validator; `none` as soon as any call is
rejected, otherwise the final validator state. -/
def Stack.runAll (s : Stack) : List Event → Option Stack
  | [] => some s
  | e :: es =>
    match s.step e with
    | (Except.ok _, s₁) => s₁.runAll es
    | (Except.error _, _) => none

/-- Like `Stack.runAll`, additionally collecting the `Pos` snapshot
returned by every successful call, in order. -/
def Stack.runPos (s : Stack) : List Event → Option (Stack × List Pos)
  | [] => some (s, [])
  | e :: es =>
    match s.step e with
    | (Except.ok p, s₁) =>
      match s₁.runPos es with
      | some (t, ps) => some (t, p :: ps)
      | none => none
    | (Except.error _, _) => none

/-- Counts `1` for the frame-opening events `map_begin`/`seq_begin`, else `0`. -/
def Event.opens : Event → Nat
  | .map_begin | .seq_begin => 1
  | _ => 0

/-- Counts `1` for the frame-closing events `map_end`/`seq_end`, else `0`. -/
def Event.closes : Event → Nat
  | .map_end | .seq_end => 1
  | _ => 0

/-- Number of frame-opening events (`map_begin`/`seq_begin`) in a list. -/
def openCount : List Event → Nat
  | [] => 0
  | e :: es => e.opens + openCount es

/-- Number of frame-closing events (`map_end`/`seq_end`) in a list. -/
def closeCount : List Event → Nat
  | [] => 0
  | e :: es => e.closes + closeCount es

/-- Abstract syntax of the grammar from the spec:
`Item ::= Primitive | Map | Seq`, a `Map` holding a list of key/value item
pairs and a `Seq` a list of element items. -/
inductive Item
  | prim : Item
  | map : List (Item × Item) → Item
  | seq : List Item → Item
deriving Repr

mutual

/-- The event sequence the grammar derives for an item:
`Map ::= map_begin (map_key Item map_value Item)* map_end` and
`Seq ::= seq_begin (seq_elem Item)* seq_end`. -/
def Item.events : Item → List Event
  | .prim => [.primitive]
  | .map es => .map_begin :: (entryEvents es ++ [.map_end])
  | .seq es => .seq_begin :: (elemEvents es ++ [.seq_end])

/-- Events of a map body: `(map_key Item map_value Item)*`. -/
def entryEvents : List (Item × Item) → List Event
  | [] => []
  | (k, v) :: rest =>
    .map_key :: (k.events ++ .map_value :: (v.events ++ entryEvents rest))

/-- Events of a sequence body: `(seq_elem Item)*`. -/
def elemEvents : List Item → List Event
  | [] => []
  | e :: rest => .seq_elem :: (e.events ++ elemEvents rest)

end

mutual

/-- Nesting depth of an item: number of frames open at the deepest point
while the item streams (0 for a primitive). -/
def Item.nest : Item → Nat
  | .prim => 0
  | .map es => entryNest es + 1
  | .seq es => elemNest es + 1

/-- Maximal nesting depth among the items of a map body. -/
def entryNest : List (Item × Item) → Nat
  | [] => 0
  | (k, v) :: rest => max (max k.nest v.nest) (entryNest rest)

/-- Maximal nesting depth among the items of a sequence body. -/
def elemNest : List Item → Nat
  | [] => 0
  | e :: rest => max e.nest (elemNest rest)

end

/-- Singleton sequences nested `n` deep around a primitive:
`seqNested 0 = prim`, `seqNested (n+1) = seq [seqNested n]`. -/
def seqNested : Nat → Item
  | 0 => .prim
  | n + 1 => .seq [seqNested n]

/-- Events opening sequence frames up to the capacity of `12`: a
`seq_begin`, then eleven times `seq_elem` followed by `seq_begin`, each
begin issued from a state awaiting an item. -/
def opens12 : List Event :=
  Event.seq_begin :: (List.replicate 11 [Event.seq_elem, Event.seq_begin]).flatten

/-- States reachable from `Stack::new()` satisfy this invariant: with `d`
open frames the packed stack uses at most `5 * d + 1` bits (the root slot
is `0` or `1`, each frame slot five bits), and the depth never exceeds the
capacity of `12`. -/
def INV (s : Stack) : Prop :=
  s.inner < 2 ^ (5 * s.depth + 1) ∧ s.depth ≤ 12

end Sval

deriving instance DecidableEq for Except

namespace Sval

/-! ### Arithmetic facts about the packed encoding

Each lemma relates one of the bit operations the Rust code performs to
plain arithmetic on the decomposition `inner = 32 * rest + slot`. -/

/-- Bit `i` of `2 ^ n * q + r` (with `r < 2 ^ n`) is bit `i` of `r` below
the split point and bit `i - n` of `q` above it. -/
theorem testBit_two_pow_mul_add {n r : Nat} (q : Nat) (hr : r < 2 ^ n) (i : Nat) :
    Nat.testBit (2 ^ n * q + r) i =
      if i < n then Nat.testBit r i else Nat.testBit q (i - n) := by
  rcases Nat.lt_or_ge i n with h | h
  · rw [if_pos h, Nat.testBit_to_div_mod, Nat.testBit_to_div_mod]
    have hsplit : 2 ^ n * q = 2 ^ i * (2 ^ (n - i) * q) := by
      rw [← Nat.mul_assoc, ← Nat.pow_add]
      congr 2
      omega
    rw [hsplit, Nat.mul_add_div (Nat.two_pow_pos i)]
    have hpar : 2 ^ (n - i) * q % 2 = 0 := by
      have h1 : 2 ^ (n - i) * q = 2 * (2 ^ (n - i - 1) * q) := by
        rw [← Nat.mul_assoc, ← Nat.pow_succ']
        congr 2
        omega
      omega
    have : (2 ^ (n - i) * q + r / 2 ^ i) % 2 = r / 2 ^ i % 2 := by omega
    rw [this]
  · rw [if_neg (by omega), Nat.testBit_to_div_mod, Nat.testBit_to_div_mod]
    have hsplit : (2 : Nat) ^ i = 2 ^ n * 2 ^ (i - n) := by
      rw [← Nat.pow_add]
      congr 1
      omega
    rw [hsplit, ← Nat.div_div_eq_div_mul, Nat.mul_add_div (Nat.two_pow_pos n),
      Nat.div_eq_of_lt hr, Nat.add_zero]

/-- Conjunction `&&&` acts independently on the two halves of a `2 ^ n` split. -/
theorem land_split {n r₁ r₂ : Nat} (q₁ q₂ : Nat) (h₁ : r₁ < 2 ^ n) (h₂ : r₂ < 2 ^ n) :
    (2 ^ n * q₁ + r₁) &&& (2 ^ n * q₂ + r₂) = 2 ^ n * (q₁ &&& q₂) + (r₁ &&& r₂) := by
  apply Nat.eq_of_testBit_eq
  intro i
  rw [Nat.testBit_and, testBit_two_pow_mul_add q₁ h₁ i, testBit_two_pow_mul_add q₂ h₂ i,
    testBit_two_pow_mul_add (q₁ &&& q₂) (Nat.and_lt_two_pow _ h₂) i]
  by_cases h : i < n <;> simp [h, Nat.testBit_and]

/-- Disjunction `|||` acts independently on the two halves of a `2 ^ n` split. -/
theorem lor_split {n r₁ r₂ : Nat} (q₁ q₂ : Nat) (h₁ : r₁ < 2 ^ n) (h₂ : r₂ < 2 ^ n) :
    (2 ^ n * q₁ + r₁) ||| (2 ^ n * q₂ + r₂) = 2 ^ n * (q₁ ||| q₂) + (r₁ ||| r₂) := by
  apply Nat.eq_of_testBit_eq
  intro i
  rw [Nat.testBit_or, testBit_two_pow_mul_add q₁ h₁ i, testBit_two_pow_mul_add q₂ h₂ i,
    testBit_two_pow_mul_add (q₁ ||| q₂) (Nat.or_lt_two_pow h₁ h₂) i]
  by_cases h : i < n <;> simp [h, Nat.testBit_or]

/-- Exclusive or `^^^` acts independently on the two halves of a `2 ^ n` split. -/
theorem xor_split {n r₁ r₂ : Nat} (q₁ q₂ : Nat) (h₁ : r₁ < 2 ^ n) (h₂ : r₂ < 2 ^ n) :
    (2 ^ n * q₁ + r₁) ^^^ (2 ^ n * q₂ + r₂) = 2 ^ n * (q₁ ^^^ q₂) + (r₁ ^^^ r₂) := by
  apply Nat.eq_of_testBit_eq
  intro i
  rw [Nat.testBit_xor, testBit_two_pow_mul_add q₁ h₁ i, testBit_two_pow_mul_add q₂ h₂ i,
    testBit_two_pow_mul_add (q₁ ^^^ q₂) (Nat.xor_lt_two_pow h₁ h₂) i]
  by_cases h : i < n <;> simp [h, Nat.testBit_xor]

/-- XOR with a value below `2 ^ n` only touches the low `n` bits. -/
theorem xor_low (n x b : Nat) (hb : b < 2 ^ n) :
    x ^^^ b = 2 ^ n * (x / 2 ^ n) + ((x % 2 ^ n) ^^^ b) := by
  have hx : x = 2 ^ n * (x / 2 ^ n) + x % 2 ^ n := (Nat.div_add_mod x (2 ^ n)).symm
  have hb' : b = 2 ^ n * 0 + b := by omega
  calc x ^^^ b = (2 ^ n * (x / 2 ^ n) + x % 2 ^ n) ^^^ (2 ^ n * 0 + b) := by
        rw [← hx, ← hb']
    _ = 2 ^ n * (x / 2 ^ n ^^^ 0) + ((x % 2 ^ n) ^^^ b) :=
        xor_split _ _ (Nat.mod_lt _ (Nat.two_pow_pos n)) hb
    _ = 2 ^ n * (x / 2 ^ n) + ((x % 2 ^ n) ^^^ b) := by rw [Nat.xor_zero]

/-- OR with a value below `2 ^ n` only touches the low `n` bits. -/
theorem lor_low (n x b : Nat) (hb : b < 2 ^ n) :
    x ||| b = 2 ^ n * (x / 2 ^ n) + ((x % 2 ^ n) ||| b) := by
  have hx : x = 2 ^ n * (x / 2 ^ n) + x % 2 ^ n := (Nat.div_add_mod x (2 ^ n)).symm
  have hb' : b = 2 ^ n * 0 + b := by omega
  calc x ||| b = (2 ^ n * (x / 2 ^ n) + x % 2 ^ n) ||| (2 ^ n * 0 + b) := by
        rw [← hx, ← hb']
    _ = 2 ^ n * (x / 2 ^ n ||| 0) + ((x % 2 ^ n) ||| b) :=
        lor_split _ _ (Nat.mod_lt _ (Nat.two_pow_pos n)) hb
    _ = 2 ^ n * (x / 2 ^ n) + ((x % 2 ^ n) ||| b) := by rw [Nat.or_zero]

/-- The `NEEDS_ITEM` guard shared by `primitive`, `map_begin` and
`seq_begin` tests exactly the parity of the packed stack. -/
theorem mod256_and_one (x : Nat) :
    (x % 256) &&& (Slot.MASK_SLOT &&& Slot.NEEDS_ITEM) = x % 2 := by
  have h : Slot.MASK_SLOT &&& Slot.NEEDS_ITEM = 1 := by decide
  rw [h, Nat.and_one_is_mod]
  omega

/-- The full slot guard reads the packed stack modulo `32`. -/
theorem mod256_and_mask (x : Nat) :
    (x % 256) &&& Slot.MASK_SLOT = x % 32 := by
  have h : Slot.MASK_SLOT = 2 ^ 5 - 1 := by decide
  rw [h, Nat.and_pow_two_sub_one_eq_mod]
  omega

/-- Pushing a frame: `((x << 5) % 2 ^ 64) & MASK_SLOT_BEGIN` pushes an empty slot while
clearing the parent's `NEEDS_ITEM` bit: arithmetically `32 * (x - 1)`
for odd `x` small enough not to truncate. -/
theorem mask_begin {x : Nat} (hodd : x % 2 = 1) (hx : x < 2 ^ 59) :
    ((x <<< Slot.BITS) % 2 ^ 64) &&& Stack.MASK_SLOT_BEGIN = 32 * (x - 1) := by
  have hbits : Slot.BITS = 5 := rfl
  rw [hbits, Nat.shiftLeft_eq]
  have h1 : x * 2 ^ 5 % 2 ^ 64 = x * 32 := by
    have : x * 32 < 2 ^ 64 := by
      calc x * 32 < 2 ^ 59 * 32 := by
            exact Nat.mul_lt_mul_of_lt_of_le hx (Nat.le_refl 32) (by norm_num)
        _ ≤ 2 ^ 64 := by norm_num
    omega
  rw [h1]
  have h2 : Stack.MASK_SLOT_BEGIN = 2 ^ 6 * (2 ^ 58 - 1) + 0 := by decide
  have h3 : x * 32 = 2 ^ 6 * (x / 2) + 32 := by omega
  rw [h2, h3, land_split _ _ (by norm_num) (by norm_num)]
  have h4 : (2 : Nat) ^ 58 - 1 = 2 ^ 58 - 1 := rfl
  rw [Nat.and_pow_two_sub_one_eq_mod, Nat.and_zero]
  have h5 : x / 2 % 2 ^ 58 = x / 2 := Nat.mod_eq_of_lt (by omega)
  rw [h5]
  omega

/-! ### Evaluation lemmas for each operation

One lemma per guard outcome, phrased over the `32 * rest + slot`
decomposition of the packed stack. -/

theorem needs_item_eq : Slot.NEEDS_ITEM = 1 := rfl

theorem valid_map_eq : Slot.NEEDS_MAP_KEY ||| Slot.NEEDS_MAP_VALUE = 6 := by decide

theorem expect_mk_eq : Slot.NEEDS_MAP_KEY ||| Slot.NEEDS_ITEM = 5 := by decide

theorem needs_map_value_eq : Slot.NEEDS_MAP_VALUE = 2 := rfl

theorem needs_seq_elem_eq : Slot.NEEDS_SEQ_ELEM = 8 := rfl

theorem max_depth_eq : Stack.MAX_DEPTH = 12 := rfl

/-- Shifting right by `Slot.BITS` is division by `32`. -/
theorem shiftRight_bits (x : Nat) : x >>> Slot.BITS = x / 32 := by
  have hb : Slot.BITS = 5 := rfl
  rw [hb, Nat.shiftRight_eq_div_pow]

/-- Calling `primitive` on a stack whose top slot needs an item clears that bit. -/
theorem primitive_ok {s : Stack} (h : s.inner % 2 = 1) :
    s.primitive = (Except.ok ⟨s.inner - 1, s.depth⟩, ⟨s.inner - 1, s.depth⟩) := by
  have hx : s.inner ^^^ 1 = s.inner - 1 := by
    have hlow := xor_low 1 s.inner 1 (by norm_num)
    have e1 : (2 : Nat) ^ 1 = 2 := by norm_num
    rw [e1, h] at hlow
    have e2 : (1 : Nat) ^^^ 1 = 0 := by decide
    rw [e2] at hlow
    rw [hlow]
    omega
  simp only [Stack.primitive]
  rw [mod256_and_one, needs_item_eq, if_pos h, hx]

/-- Calling `primitive` is rejected when the top slot does not need an item. -/
theorem primitive_err {s : Stack} (h : s.inner % 2 ≠ 1) :
    s.primitive = (Except.error (Error.custom ("a primitive")), s) := by
  simp only [Stack.primitive]
  rw [mod256_and_one, needs_item_eq, if_neg h]

/-- Calling `map_begin` away from the depth ceiling, on a slot needing an item. -/
theorem map_begin_ok {s : Stack} (h : s.inner % 2 = 1) (hx : s.inner < 2 ^ 59)
    (hd : s.depth ≠ 12) (hd' : s.depth < 255) :
    s.map_begin = (Except.ok ⟨32 * (s.inner - 1) + 6, s.depth + 1⟩,
      ⟨32 * (s.inner - 1) + 6, s.depth + 1⟩) := by
  have hmask : ((s.inner <<< Slot.BITS) % 2 ^ 64) &&& Stack.MASK_SLOT_BEGIN =
      32 * (s.inner - 1) := mask_begin h hx
  have hor : 32 * (s.inner - 1) ||| 6 = 32 * (s.inner - 1) + 6 := by
    have hlow := lor_low 5 (32 * (s.inner - 1)) 6 (by norm_num)
    have e1 : (2 : Nat) ^ 5 = 32 := by norm_num
    rw [e1] at hlow
    have e2 : 32 * (s.inner - 1) % 32 = 0 := by omega
    rw [e2] at hlow
    have e3 : (0 : Nat) ||| 6 = 6 := by decide
    rw [e3] at hlow
    rw [hlow]
    omega
  have hdep : (s.depth + 1) % 256 = s.depth + 1 := Nat.mod_eq_of_lt (by omega)
  simp only [Stack.map_begin]
  rw [max_depth_eq, if_neg hd, mod256_and_one, needs_item_eq, if_pos h, hmask,
    valid_map_eq, hor, hdep]

/-- Calling `map_begin` at the depth ceiling is rejected before any other check. -/
theorem map_begin_depth_err {s : Stack} (hd : s.depth = 12) :
    s.map_begin = (Except.error (Error.custom ("more depth at the start of a map")), s) := by
  simp only [Stack.map_begin]
  rw [max_depth_eq, if_pos hd]

/-- Calling `map_begin` below the ceiling but on a slot not needing an item. -/
theorem map_begin_slot_err {s : Stack} (hd : s.depth ≠ 12) (h : s.inner % 2 ≠ 1) :
    s.map_begin = (Except.error (Error.custom ("the start of a map")), s) := by
  simp only [Stack.map_begin]
  rw [max_depth_eq, if_neg hd, mod256_and_one, needs_item_eq, if_neg h]

/-- Calling `map_key` on a `MapAwaitingKey` slot (`0b00110`). -/
theorem map_key_ok {s : Stack} (h : s.inner % 32 = 6) :
    s.map_key = (Except.ok ⟨s.inner - 3, s.depth⟩, ⟨s.inner - 3, s.depth⟩) := by
  have hx : s.inner ^^^ 5 = s.inner - 3 := by
    have hlow := xor_low 5 s.inner 5 (by norm_num)
    have e1 : (2 : Nat) ^ 5 = 32 := by norm_num
    rw [e1, h] at hlow
    have e2 : (6 : Nat) ^^^ 5 = 3 := by decide
    rw [e2] at hlow
    rw [hlow]
    omega
  simp only [Stack.map_key]
  rw [mod256_and_mask, valid_map_eq, expect_mk_eq, if_pos h, hx]

/-- Calling `map_key` on any other slot is rejected. -/
theorem map_key_err {s : Stack} (h : s.inner % 32 ≠ 6) :
    s.map_key = (Except.error (Error.custom ("a map key")), s) := by
  simp only [Stack.map_key]
  rw [mod256_and_mask, valid_map_eq, if_neg h]

/-- Calling `map_value` on a `MapAwaitingValue` slot with the key's item complete
(`0b00010`). -/
theorem map_value_ok {s : Stack} (h : s.inner % 32 = 2) :
    s.map_value = (Except.ok ⟨s.inner + 5, s.depth⟩, ⟨s.inner + 5, s.depth⟩) := by
  have hx : s.inner ^^^ 5 = s.inner + 5 := by
    have hlow := xor_low 5 s.inner 5 (by norm_num)
    have e1 : (2 : Nat) ^ 5 = 32 := by norm_num
    rw [e1, h] at hlow
    have e2 : (2 : Nat) ^^^ 5 = 7 := by decide
    rw [e2] at hlow
    rw [hlow]
    omega
  simp only [Stack.map_value]
  rw [mod256_and_mask, needs_map_value_eq, expect_mk_eq, if_pos h, hx]

/-- Calling `map_value` on any other slot is rejected. -/
theorem map_value_err {s : Stack} (h : s.inner % 32 ≠ 2) :
    s.map_value = (Except.error (Error.custom ("a map value")), s) := by
  simp only [Stack.map_value]
  rw [mod256_and_mask, needs_map_value_eq, if_neg h]

/-- Calling `map_end` on a `MapAwaitingKey` slot pops the frame. -/
theorem map_end_ok {s : Stack} (h : s.inner % 32 = 6) (hd : 1 ≤ s.depth)
    (hd' : s.depth ≤ 255) :
    s.map_end = (Except.ok ⟨s.inner / 32, s.depth - 1⟩, ⟨s.inner / 32, s.depth - 1⟩) := by
  have hdep : (s.depth + 255) % 256 = s.depth - 1 := by omega
  simp only [Stack.map_end]
  rw [mod256_and_mask, valid_map_eq, if_pos h, shiftRight_bits, hdep]

/-- Calling `map_end` on any other slot is rejected. -/
theorem map_end_err {s : Stack} (h : s.inner % 32 ≠ 6) :
    s.map_end = (Except.error (Error.custom ("the end of a map")), s) := by
  simp only [Stack.map_end]
  rw [mod256_and_mask, valid_map_eq, if_neg h]

/-- Calling `seq_begin` away from the depth ceiling, on a slot needing an item. -/
theorem seq_begin_ok {s : Stack} (h : s.inner % 2 = 1) (hx : s.inner < 2 ^ 59)
    (hd : s.depth ≠ 12) (hd' : s.depth < 255) :
    s.seq_begin = (Except.ok ⟨32 * (s.inner - 1) + 8, s.depth + 1⟩,
      ⟨32 * (s.inner - 1) + 8, s.depth + 1⟩) := by
  have hmask : ((s.inner <<< Slot.BITS) % 2 ^ 64) &&& Stack.MASK_SLOT_BEGIN =
      32 * (s.inner - 1) := mask_begin h hx
  have hor : 32 * (s.inner - 1) ||| 8 = 32 * (s.inner - 1) + 8 := by
    have hlow := lor_low 5 (32 * (s.inner - 1)) 8 (by norm_num)
    have e1 : (2 : Nat) ^ 5 = 32 := by norm_num
    rw [e1] at hlow
    have e2 : 32 * (s.inner - 1) % 32 = 0 := by omega
    rw [e2] at hlow
    have e3 : (0 : Nat) ||| 8 = 8 := by decide
    rw [e3] at hlow
    rw [hlow]
    omega
  have hdep : (s.depth + 1) % 256 = s.depth + 1 := Nat.mod_eq_of_lt (by omega)
  simp only [Stack.seq_begin]
  rw [max_depth_eq, if_neg hd, mod256_and_one, needs_item_eq, if_pos h, hmask,
    needs_seq_elem_eq, hor, hdep]

/-- Calling `seq_begin` at the depth ceiling is rejected before any other check. -/
theorem seq_begin_depth_err {s : Stack} (hd : s.depth = 12) :
    s.seq_begin = (Except.error (Error.custom ("more depth at the start of a sequence")), s) := by
  simp only [Stack.seq_begin]
  rw [max_depth_eq, if_pos hd]

/-- Calling `seq_begin` below the ceiling but on a slot not needing an item. -/
theorem seq_begin_slot_err {s : Stack} (hd : s.depth ≠ 12) (h : s.inner % 2 ≠ 1) :
    s.seq_begin = (Except.error (Error.custom ("the start of a sequence")), s) := by
  simp only [Stack.seq_begin]
  rw [max_depth_eq, if_neg hd, mod256_and_one, needs_item_eq, if_neg h]

/-- Calling `seq_elem` on a `SeqAwaitingElem` slot (`0b01000`). -/
theorem seq_elem_ok {s : Stack} (h : s.inner % 32 = 8) :
    s.seq_elem = (Except.ok ⟨s.inner + 1, s.depth⟩, ⟨s.inner + 1, s.depth⟩) := by
  have hx : s.inner ||| 1 = s.inner + 1 := by
    have hlow := lor_low 5 s.inner 1 (by norm_num)
    have e1 : (2 : Nat) ^ 5 = 32 := by norm_num
    rw [e1, h] at hlow
    have e2 : (8 : Nat) ||| 1 = 9 := by decide
    rw [e2] at hlow
    rw [hlow]
    omega
  simp only [Stack.seq_elem]
  rw [mod256_and_mask, needs_seq_elem_eq, needs_item_eq, if_pos h, hx]

/-- Calling `seq_elem` on any other slot is rejected. -/
theorem seq_elem_err {s : Stack} (h : s.inner % 32 ≠ 8) :
    s.seq_elem = (Except.error (Error.custom ("a sequence element")), s) := by
  simp only [Stack.seq_elem]
  rw [mod256_and_mask, needs_seq_elem_eq, if_neg h]

/-- Calling `seq_end` on a `SeqAwaitingElem` slot pops the frame. -/
theorem seq_end_ok {s : Stack} (h : s.inner % 32 = 8) (hd : 1 ≤ s.depth)
    (hd' : s.depth ≤ 255) :
    s.seq_end = (Except.ok ⟨s.inner / 32, s.depth - 1⟩, ⟨s.inner / 32, s.depth - 1⟩) := by
  have hdep : (s.depth + 255) % 256 = s.depth - 1 := by omega
  simp only [Stack.seq_end]
  rw [mod256_and_mask, needs_seq_elem_eq, if_pos h, shiftRight_bits, hdep]

/-- Calling `seq_end` on any other slot is rejected. -/
theorem seq_end_err {s : Stack} (h : s.inner % 32 ≠ 8) :
    s.seq_end = (Except.error (Error.custom ("the end of a sequence")), s) := by
  simp only [Stack.seq_end]
  rw [mod256_and_mask, needs_seq_elem_eq, if_neg h]

/-! ### Reachability invariant -/

theorem INV_new : INV Stack.new := by
  constructor <;> norm_num [Stack.new, Slot.NEEDS_ITEM]

theorem pow_depth_succ (d : Nat) : (2 : Nat) ^ (5 * (d + 1) + 1) = 32 * 2 ^ (5 * d + 1) := by
  have h : 5 * (d + 1) + 1 = 5 + (5 * d + 1) := by omega
  rw [h, pow_add]
  norm_num

theorem pow_depth_pred {d : Nat} (hd : 1 ≤ d) :
    (2 : Nat) ^ (5 * d + 1) = 32 * 2 ^ (5 * (d - 1) + 1) := by
  have h := pow_depth_succ (d - 1)
  have h2 : d - 1 + 1 = d := by omega
  rw [h2] at h
  exact h

/-- Every event dispatches to the corresponding method. -/
theorem step_eq (s : Stack) :
    s.step .primitive = s.primitive ∧ s.step .map_begin = s.map_begin ∧
    s.step .map_key = s.map_key ∧ s.step .map_value = s.map_value ∧
    s.step .map_end = s.map_end ∧ s.step .seq_begin = s.seq_begin ∧
    s.step .seq_elem = s.seq_elem ∧ s.step .seq_end = s.seq_end :=
  ⟨rfl, rfl, rfl, rfl, rfl, rfl, rfl, rfl⟩

/-- A successful step preserves the invariant, snapshots the post-state in
the returned `Pos`, and moves the depth by the event's open/close delta. -/
theorem step_ok_spec {s : Stack} {e : Event} {p : Pos} {s' : Stack}
    (hinv : INV s) (hstep : s.step e = (Except.ok p, s')) :
    INV s' ∧ p = ⟨s'.inner, s'.depth⟩ ∧
      s'.depth + e.closes = s.depth + e.opens := by
  obtain ⟨hlt, hdep⟩ := hinv
  cases e
  case primitive =>
    rw [show s.step .primitive = s.primitive from rfl] at hstep
    by_cases h : s.inner % 2 = 1
    · rw [primitive_ok h] at hstep
      obtain ⟨hp, hs⟩ := Prod.mk.injEq .. ▸ hstep
      cases hs
      refine ⟨⟨?_, hdep⟩, by exact (Except.ok.injEq .. ▸ hp).symm ▸ rfl, by
        simp [Event.closes, Event.opens]⟩
      show s.inner - 1 < 2 ^ (5 * s.depth + 1)
      omega
    · rw [primitive_err h] at hstep
      exact absurd (congrArg Prod.fst hstep) (by simp)
  case map_begin =>
    rw [show s.step .map_begin = s.map_begin from rfl] at hstep
    by_cases hd : s.depth = 12
    · rw [map_begin_depth_err hd] at hstep
      exact absurd (congrArg Prod.fst hstep) (by simp)
    by_cases h : s.inner % 2 = 1
    · have hx : s.inner < 2 ^ 59 := by
        have : (2 : Nat) ^ (5 * s.depth + 1) ≤ 2 ^ 59 := by
          apply Nat.pow_le_pow_right (by norm_num)
          omega
        omega
      rw [map_begin_ok h hx hd (by omega)] at hstep
      obtain ⟨hp, hs⟩ := Prod.mk.injEq .. ▸ hstep
      cases hs
      refine ⟨⟨?_, by show s.depth + 1 ≤ 12; omega⟩,
        by exact (Except.ok.injEq .. ▸ hp).symm ▸ rfl, by
        simp [Event.closes, Event.opens]⟩
      show 32 * (s.inner - 1) + 6 < 2 ^ (5 * (s.depth + 1) + 1)
      rw [pow_depth_succ]
      omega
    · rw [map_begin_slot_err hd h] at hstep
      exact absurd (congrArg Prod.fst hstep) (by simp)
  case map_key =>
    rw [show s.step .map_key = s.map_key from rfl] at hstep
    by_cases h : s.inner % 32 = 6
    · rw [map_key_ok h] at hstep
      obtain ⟨hp, hs⟩ := Prod.mk.injEq .. ▸ hstep
      cases hs
      refine ⟨⟨?_, hdep⟩, by exact (Except.ok.injEq .. ▸ hp).symm ▸ rfl, by
        simp [Event.closes, Event.opens]⟩
      show s.inner - 3 < 2 ^ (5 * s.depth + 1)
      omega
    · rw [map_key_err h] at hstep
      exact absurd (congrArg Prod.fst hstep) (by simp)
  case map_value =>
    rw [show s.step .map_value = s.map_value from rfl] at hstep
    by_cases h : s.inner % 32 = 2
    · have hd1 : 1 ≤ s.depth := by
        by_contra hc
        have h0 : s.depth = 0 := by omega
        rw [h0] at hlt
        norm_num at hlt
        omega
      have hmul : (2 : Nat) ^ (5 * s.depth + 1) = 32 * 2 ^ (5 * (s.depth - 1) + 1) :=
        pow_depth_pred hd1
      rw [map_value_ok h] at hstep
      obtain ⟨hp, hs⟩ := Prod.mk.injEq .. ▸ hstep
      cases hs
      refine ⟨⟨?_, hdep⟩, by exact (Except.ok.injEq .. ▸ hp).symm ▸ rfl, by
        simp [Event.closes, Event.opens]⟩
      show s.inner + 5 < 2 ^ (5 * s.depth + 1)
      rw [hmul] at hlt ⊢
      omega
    · rw [map_value_err h] at hstep
      exact absurd (congrArg Prod.fst hstep) (by simp)
  case map_end =>
    rw [show s.step .map_end = s.map_end from rfl] at hstep
    by_cases h : s.inner % 32 = 6
    · have hd1 : 1 ≤ s.depth := by
        by_contra hc
        have h0 : s.depth = 0 := by omega
        rw [h0] at hlt
        norm_num at hlt
        omega
      rw [map_end_ok h hd1 (by omega)] at hstep
      obtain ⟨hp, hs⟩ := Prod.mk.injEq .. ▸ hstep
      cases hs
      refine ⟨⟨?_, by show s.depth - 1 ≤ 12; omega⟩,
        by exact (Except.ok.injEq .. ▸ hp).symm ▸ rfl, by
        simp [Event.closes, Event.opens]
        omega⟩
      show s.inner / 32 < 2 ^ (5 * (s.depth - 1) + 1)
      rw [pow_depth_pred hd1] at hlt
      omega
    · rw [map_end_err h] at hstep
      exact absurd (congrArg Prod.fst hstep) (by simp)
  case seq_begin =>
    rw [show s.step .seq_begin = s.seq_begin from rfl] at hstep
    by_cases hd : s.depth = 12
    · rw [seq_begin_depth_err hd] at hstep
      exact absurd (congrArg Prod.fst hstep) (by simp)
    by_cases h : s.inner % 2 = 1
    · have hx : s.inner < 2 ^ 59 := by
        have : (2 : Nat) ^ (5 * s.depth + 1) ≤ 2 ^ 59 := by
          apply Nat.pow_le_pow_right (by norm_num)
          omega
        omega
      rw [seq_begin_ok h hx hd (by omega)] at hstep
      obtain ⟨hp, hs⟩ := Prod.mk.injEq .. ▸ hstep
      cases hs
      refine ⟨⟨?_, by show s.depth + 1 ≤ 12; omega⟩,
        by exact (Except.ok.injEq .. ▸ hp).symm ▸ rfl, by
        simp [Event.closes, Event.opens]⟩
      show 32 * (s.inner - 1) + 8 < 2 ^ (5 * (s.depth + 1) + 1)
      rw [pow_depth_succ]
      omega
    · rw [seq_begin_slot_err hd h] at hstep
      exact absurd (congrArg Prod.fst hstep) (by simp)
  case seq_elem =>
    rw [show s.step .seq_elem = s.seq_elem from rfl] at hstep
    by_cases h : s.inner % 32 = 8
    · have hd1 : 1 ≤ s.depth := by
        by_contra hc
        have h0 : s.depth = 0 := by omega
        rw [h0] at hlt
        norm_num at hlt
        omega
      rw [seq_elem_ok h] at hstep
      obtain ⟨hp, hs⟩ := Prod.mk.injEq .. ▸ hstep
      cases hs
      refine ⟨⟨?_, hdep⟩, by exact (Except.ok.injEq .. ▸ hp).symm ▸ rfl, by
        simp [Event.closes, Event.opens]⟩
      show s.inner + 1 < 2 ^ (5 * s.depth + 1)
      rw [pow_depth_pred hd1] at hlt ⊢
      omega
    · rw [seq_elem_err h] at hstep
      exact absurd (congrArg Prod.fst hstep) (by simp)
  case seq_end =>
    rw [show s.step .seq_end = s.seq_end from rfl] at hstep
    by_cases h : s.inner % 32 = 8
    · have hd1 : 1 ≤ s.depth := by
        by_contra hc
        have h0 : s.depth = 0 := by omega
        rw [h0] at hlt
        norm_num at hlt
        omega
      rw [seq_end_ok h hd1 (by omega)] at hstep
      obtain ⟨hp, hs⟩ := Prod.mk.injEq .. ▸ hstep
      cases hs
      refine ⟨⟨?_, by show s.depth - 1 ≤ 12; omega⟩,
        by exact (Except.ok.injEq .. ▸ hp).symm ▸ rfl, by
        simp [Event.closes, Event.opens]
        omega⟩
      show s.inner / 32 < 2 ^ (5 * (s.depth - 1) + 1)
      rw [pow_depth_pred hd1] at hlt
      omega
    · rw [seq_end_err h] at hstep
      exact absurd (congrArg Prod.fst hstep) (by simp)

/-! ### Running event lists -/

theorem runAll_cons_ok {s s₁ : Stack} {e : Event} {p : Pos}
    (h : s.step e = (Except.ok p, s₁)) (es : List Event) :
    s.runAll (e :: es) = s₁.runAll es := by
  simp only [Stack.runAll, h]

theorem runAll_append (s : Stack) (l₁ l₂ : List Event) :
    s.runAll (l₁ ++ l₂) = (s.runAll l₁).bind fun t => t.runAll l₂ := by
  induction l₁ generalizing s with
  | nil => simp [Stack.runAll]
  | cons e es ih =>
    simp only [List.cons_append, Stack.runAll]
    cases hstep : s.step e with
    | mk r s₁ =>
      cases r with
      | ok p => simp [ih]
      | error err => simp

/-- Accepted runs preserve the invariant, and the final depth is the
initial depth plus opens minus closes. -/
theorem runAll_inv {evs : List Event} {s t : Stack} (hinv : INV s)
    (hrun : s.runAll evs = some t) :
    INV t ∧ t.depth + closeCount evs = s.depth + openCount evs := by
  induction evs generalizing s with
  | nil =>
    simp only [Stack.runAll, Option.some.injEq] at hrun
    subst hrun
    exact ⟨hinv, by simp [openCount, closeCount]⟩
  | cons e es ih =>
    simp only [Stack.runAll] at hrun
    cases hstep : s.step e with
    | mk r s₁ =>
      rw [hstep] at hrun
      cases r with
      | ok p =>
        obtain ⟨hinv₁, _, hdelta⟩ := step_ok_spec hinv hstep
        obtain ⟨hit, heq⟩ := ih hinv₁ hrun
        refine ⟨hit, ?_⟩
        simp only [openCount, closeCount]
        omega
      | error err => simp at hrun

/-- Position-collecting runs agree with `runAll` on acceptance, every
collected position snapshots an invariant-satisfying state, and each
position's depth is the running open-frame count at its step. -/
theorem runPos_spec {evs : List Event} {s t : Stack} {ps : List Pos} (hinv : INV s)
    (hrun : s.runPos evs = some (t, ps)) :
    INV t ∧ ps.length = evs.length ∧ (∀ p ∈ ps, p.d ≤ 12) ∧
      ∀ i, i < evs.length →
        (ps.getD i ⟨0, 0⟩).d + closeCount (evs.take (i + 1)) =
          s.depth + openCount (evs.take (i + 1)) := by
  induction evs generalizing s ps with
  | nil =>
    simp only [Stack.runPos, Option.some.injEq, Prod.mk.injEq] at hrun
    obtain ⟨h1, h2⟩ := hrun
    subst h1
    subst h2
    exact ⟨hinv, rfl, by simp, by simp⟩
  | cons e es ih =>
    simp only [Stack.runPos] at hrun
    cases hstep : s.step e with
    | mk r s₁ =>
      rw [hstep] at hrun
      cases r with
      | ok p =>
        replace hrun : (match s₁.runPos es with
            | some (u, qs) => some (u, p :: qs)
            | none => none) = some (t, ps) := hrun
        cases hrest : s₁.runPos es with
        | none => rw [hrest] at hrun; simp at hrun
        | some tps =>
          obtain ⟨t₁, ps₁⟩ := tps
          rw [hrest] at hrun
          simp only [Option.some.injEq, Prod.mk.injEq] at hrun
          obtain ⟨ht, hps⟩ := hrun
          subst ht
          subst hps
          obtain ⟨hinv₁, hpos, hdelta⟩ := step_ok_spec hinv hstep
          obtain ⟨hit, hlen, hmem, hidx⟩ := ih hinv₁ hrest
          refine ⟨hit, by simp [hlen], ?_, ?_⟩
          · intro q hq
            rcases List.mem_cons.mp hq with hq | hq
            · subst hq
              rw [hpos]
              exact hinv₁.2
            · exact hmem q hq
          · intro i hi
            cases i with
            | zero =>
              simp only [List.take_succ_cons, List.take_zero, List.getD_cons_zero]
              simp only [openCount, closeCount]
              rw [hpos]
              simp only [openCount, closeCount] at hdelta ⊢
              omega
            | succ j =>
              have hj : j < es.length := by simpa using hi
              have := hidx j hj
              simp only [List.take_succ_cons, List.getD_cons_succ]
              simp only [openCount, closeCount] at this ⊢
              omega
      | error err => simp at hrun

/-! ### Replaying grammar-derived event sequences -/

/-- Closing a map frame via `runAll`. -/
theorem runAll_map_end (u : Stack) (hu : u.inner % 32 = 6) (h1 : 1 ≤ u.depth)
    (h2 : u.depth ≤ 255) : u.runAll [.map_end] = some ⟨u.inner / 32, u.depth - 1⟩ := by
  rw [runAll_cons_ok (show u.step .map_end = _ from map_end_ok hu h1 h2)]
  rfl

/-- Closing a sequence frame via `runAll`. -/
theorem runAll_seq_end (u : Stack) (hu : u.inner % 32 = 8) (h1 : 1 ≤ u.depth)
    (h2 : u.depth ≤ 255) : u.runAll [.seq_end] = some ⟨u.inner / 32, u.depth - 1⟩ := by
  rw [runAll_cons_ok (show u.step .seq_end = _ from seq_end_ok hu h1 h2)]
  rfl

mutual

/-- Replaying one grammar item from any state whose top slot awaits an
item consumes exactly that obligation: the packed stack loses its low bit
and the depth is restored. -/
theorem replay_item (it : Item) : ∀ (i d : Nat), i % 2 = 1 → i < 2 ^ (5 * d + 1) →
    d + it.nest ≤ 12 → Stack.runAll ⟨i, d⟩ it.events = some ⟨i - 1, d⟩ := by
  cases it with
  | prim =>
    intro i d h1 h2 h3
    rw [show Item.prim.events = [Event.primitive] from rfl]
    rw [runAll_cons_ok (show Stack.step ⟨i, d⟩ .primitive = _ from primitive_ok h1)]
    rfl
  | map es =>
    intro i d h1 h2 h3
    have hnest : (Item.map es).nest = entryNest es + 1 := by simp [Item.nest]
    rw [hnest] at h3
    have hx : i < 2 ^ 59 := by
      have hle : (2 : Nat) ^ (5 * d + 1) ≤ 2 ^ 59 := by
        apply Nat.pow_le_pow_right (by norm_num)
        omega
      omega
    rw [show (Item.map es).events = .map_begin :: (entryEvents es ++ [.map_end]) from rfl]
    rw [runAll_cons_ok (show Stack.step ⟨i, d⟩ .map_begin = _ from
      map_begin_ok h1 hx (by show d ≠ 12; omega) (by show d < 255; omega))]
    dsimp only
    rw [runAll_append]
    rw [replay_entries es (32 * (i - 1) + 6) (d + 1) (by omega)
      (by rw [pow_depth_succ]; omega) (by omega)]
    rw [Option.some_bind]
    rw [runAll_map_end ⟨32 * (i - 1) + 6, d + 1⟩ (by show (32 * (i - 1) + 6) % 32 = 6; omega)
      (by show 1 ≤ d + 1; omega) (by show d + 1 ≤ 255; omega)]
    simp only [Option.some.injEq, Stack.mk.injEq]
    constructor <;> omega
  | seq es =>
    intro i d h1 h2 h3
    have hnest : (Item.seq es).nest = elemNest es + 1 := by simp [Item.nest]
    rw [hnest] at h3
    have hx : i < 2 ^ 59 := by
      have hle : (2 : Nat) ^ (5 * d + 1) ≤ 2 ^ 59 := by
        apply Nat.pow_le_pow_right (by norm_num)
        omega
      omega
    rw [show (Item.seq es).events = .seq_begin :: (elemEvents es ++ [.seq_end]) from rfl]
    rw [runAll_cons_ok (show Stack.step ⟨i, d⟩ .seq_begin = _ from
      seq_begin_ok h1 hx (by show d ≠ 12; omega) (by show d < 255; omega))]
    dsimp only
    rw [runAll_append]
    rw [replay_elems es (32 * (i - 1) + 8) (d + 1) (by omega)
      (by rw [pow_depth_succ]; omega) (by omega)]
    rw [Option.some_bind]
    rw [runAll_seq_end ⟨32 * (i - 1) + 8, d + 1⟩ (by show (32 * (i - 1) + 8) % 32 = 8; omega)
      (by show 1 ≤ d + 1; omega) (by show d + 1 ≤ 255; omega)]
    simp only [Option.some.injEq, Stack.mk.injEq]
    constructor <;> omega

/-- Replaying the body of a map (`(map_key Item map_value Item)*`) from a
`MapAwaitingKey` slot returns to exactly the same state. -/
theorem replay_entries (es : List (Item × Item)) : ∀ (i d : Nat), i % 32 = 6 →
    i < 2 ^ (5 * d + 1) → d + entryNest es ≤ 12 →
    Stack.runAll ⟨i, d⟩ (entryEvents es) = some ⟨i, d⟩ := by
  cases es with
  | nil => intro i d h1 h2 h3; rfl
  | cons kv rest =>
    obtain ⟨k, v⟩ := kv
    intro i d h1 h2 h3
    have hnest : entryNest ((k, v) :: rest) = max (max k.nest v.nest) (entryNest rest) := by
      simp [entryNest]
    rw [hnest] at h3
    have hd1 : 1 ≤ d := by
      by_contra hc
      have h0 : d = 0 := by omega
      rw [h0] at h2
      norm_num at h2
      omega
    have hB : (2 : Nat) ^ (5 * d + 1) = 32 * 2 ^ (5 * (d - 1) + 1) := pow_depth_pred hd1
    rw [show entryEvents ((k, v) :: rest) =
      .map_key :: (k.events ++ .map_value :: (v.events ++ entryEvents rest)) from rfl]
    rw [runAll_cons_ok (show Stack.step ⟨i, d⟩ .map_key = _ from map_key_ok h1)]
    dsimp only
    rw [runAll_append]
    rw [replay_item k (i - 3) d (by omega) (by omega) (by omega)]
    rw [Option.some_bind]
    rw [runAll_cons_ok (show Stack.step ⟨i - 3 - 1, d⟩ .map_value = _ from
      map_value_ok (by show (i - 3 - 1) % 32 = 2; omega))]
    dsimp only
    rw [runAll_append]
    rw [replay_item v (i - 3 - 1 + 5) d (by omega) (by rw [hB] at h2 ⊢; omega) (by omega)]
    rw [Option.some_bind]
    have hfix : i - 3 - 1 + 5 - 1 = i := by omega
    rw [show (⟨i - 3 - 1 + 5 - 1, d⟩ : Stack) = ⟨i, d⟩ from by rw [hfix]]
    exact replay_entries rest i d h1 h2 (by omega)

/-- Replaying the body of a sequence (`(seq_elem Item)*`) from a
`SeqAwaitingElem` slot returns to exactly the same state. -/
theorem replay_elems (es : List Item) : ∀ (i d : Nat), i % 32 = 8 →
    i < 2 ^ (5 * d + 1) → d + elemNest es ≤ 12 →
    Stack.runAll ⟨i, d⟩ (elemEvents es) = some ⟨i, d⟩ := by
  cases es with
  | nil => intro i d h1 h2 h3; rfl
  | cons e rest =>
    intro i d h1 h2 h3
    have hnest : elemNest (e :: rest) = max e.nest (elemNest rest) := by simp [elemNest]
    rw [hnest] at h3
    have hd1 : 1 ≤ d := by
      by_contra hc
      have h0 : d = 0 := by omega
      rw [h0] at h2
      norm_num at h2
      omega
    have hB : (2 : Nat) ^ (5 * d + 1) = 32 * 2 ^ (5 * (d - 1) + 1) := pow_depth_pred hd1
    rw [show elemEvents (e :: rest) = .seq_elem :: (e.events ++ elemEvents rest) from rfl]
    rw [runAll_cons_ok (show Stack.step ⟨i, d⟩ .seq_elem = _ from seq_elem_ok h1)]
    dsimp only
    rw [runAll_append]
    rw [replay_item e (i + 1) d (by omega) (by rw [hB] at h2 ⊢; omega) (by omega)]
    rw [Option.some_bind]
    have hfix : i + 1 - 1 = i := by omega
    rw [show (⟨i + 1 - 1, d⟩ : Stack) = ⟨i, d⟩ from by rw [hfix]]
    exact replay_elems rest i d h1 h2 (by omega)

end

/-! ### Error paths leave the validator untouched -/

/-- Whenever an event is rejected, the post-call state is the pre-call
state: every mutation in the source happens only in an `Ok` branch, so the
error branches return the receiver untouched. -/
theorem step_error_state {s s₁ : Stack} {e : Event} {err : Error}
    (h : s.step e = (Except.error err, s₁)) : s₁ = s := by
  cases e <;>
    simp only [Stack.step, Stack.primitive, Stack.map_begin, Stack.map_key, Stack.map_value,
      Stack.map_end, Stack.seq_begin, Stack.seq_elem, Stack.seq_end] at h <;>
    (repeat' split at h) <;>
    simp only [Prod.mk.injEq] at h <;>
    first
      | exact h.2.symm
      | exact absurd h.1 (by simp)

/-- Like `step_error_state`, for the terminal `end` operation. -/
theorem end_error_state {s s₁ : Stack} {err : Error}
    (h : s.«end» = (Except.error err, s₁)) : s₁ = s := by
  simp only [Stack.«end»] at h
  split at h <;> simp only [Prod.mk.injEq] at h
  · exact absurd h.1 (by simp)
  · exact h.2.symm

/-! ### The claims -/

/-- C1: the claim asserts `can_end()` is true iff `depth == 0` and the
root item obligation has been satisfied, and that `end()` on a fresh
validator fails with an incomplete-stream error.  The code violates this:
`can_end` masks the low byte with `!Slot::NEEDS_ITEM`, discarding the root
item obligation, so on `Stack::new()` — where the root slot still carries
`NEEDS_ITEM`, i.e. no root item has been produced — `can_end()` already
returns `true` and `end()` succeeds, contradicting the claim and the
source's own documentation ("whether or not the stack has seen a complete
and valid stream"). -/
theorem C1_fresh_end_accepted :
    Stack.new.inner % 2 = 1 ∧ Stack.new.can_end = true ∧
      Stack.new.«end» = (Except.ok (), Stack.new) := by
  refine ⟨rfl, rfl, by decide⟩

/-- C2 counterexample: the claim quantifies over every grammar-derivable
event sequence, but the sequence of thirteen nested singleton sequences —
derivable from the grammar — is rejected partway: the thirteenth
`seq_begin` exceeds the depth capacity of 12, so not every call succeeds. -/
theorem C2_deep_item_rejected :
    Stack.runAll Stack.new (Item.events (seqNested 13)) = none := by decide

/-- C2 (amended): for every event sequence derivable from the grammar
whose nesting depth is at most the capacity 12, feeding the sequence to a
fresh validator makes every call succeed, and after the full sequence has
been replayed `can_end()` is true and the depth has returned to 0. -/
theorem C2_grammar_accepted (it : Item) (h : it.nest ≤ 12) :
    ∃ t : Stack, Stack.runAll Stack.new it.events = some t ∧
      t.can_end = true ∧ t.depth = 0 := by
  refine ⟨⟨0, 0⟩, ?_, rfl, rfl⟩
  have hr := replay_item it 1 0 rfl (by norm_num) (by omega)
  simpa using hr

/-- Witness for C2: a one-entry map whose value is a singleton sequence. -/
theorem C2_grammar_accepted_witness :
    (Item.map [(Item.prim, Item.seq [Item.prim])]).nest ≤ 12 ∧
      ∃ t : Stack,
        Stack.runAll Stack.new (Item.map [(Item.prim, Item.seq [Item.prim])]).events = some t ∧
          t.can_end = true ∧ t.depth = 0 :=
  ⟨by decide, C2_grammar_accepted _ (by decide)⟩

/-- C3: opening frames from item-awaiting states succeeds twelve times
(`opens12` reaches depth 12), the thirteenth `seq_begin`/`map_begin` is
rejected with the depth-exceeded error, and after `seq_end` closes one
frame, a new frame can again be opened at that depth. -/
theorem C3_capacity_boundary :
    Stack.runAll Stack.new opens12 = some ⟨297528130221121800, 12⟩ ∧
      ((Stack.seq_elem ⟨297528130221121800, 12⟩).1.isOk = true ∧
        ((Stack.seq_elem ⟨297528130221121800, 12⟩).2.seq_begin).1 =
          Except.error (Error.custom ("more depth at the start of a sequence")) ∧
        ((Stack.seq_elem ⟨297528130221121800, 12⟩).2.map_begin).1 =
          Except.error (Error.custom ("more depth at the start of a map"))) ∧
      ((Stack.seq_end ⟨297528130221121800, 12⟩).1.isOk = true ∧
        (Stack.seq_end ⟨297528130221121800, 12⟩).2.depth = 11 ∧
        ((Stack.seq_end ⟨297528130221121800, 12⟩).2.seq_elem.2.seq_begin).1.isOk = true ∧
        ((Stack.seq_end ⟨297528130221121800, 12⟩).2.seq_elem.2.seq_begin).2.depth = 12) := by
  decide

/-- C4: `map_value` succeeds exactly when the top slot is
`NEEDS_MAP_VALUE` alone (`0b00010`) — the `MapAwaitingValue` state with
the key's item completed, its `NEEDS_ITEM` bit already cleared; and on a
fresh validator, `map_begin()` followed by `map_value()` (skipping
`map_key`) fails with the protocol-violation error "expecting a map
value". -/
theorem C4_map_value_guard :
    (∀ s : Stack, s.map_value.1.isOk = true ↔ s.inner % 32 = 2) ∧
      Stack.new.map_begin.2.map_value.1 =
        Except.error (Error.custom ("a map value")) := by
  constructor
  · intro s
    by_cases h : s.inner % 32 = 2
    · rw [map_value_ok h]
      simp [Except.isOk, Except.toBool, h]
    · rw [map_value_err h]
      simp [Except.isOk, Except.toBool, h]
  · decide

/-- C5: on any accepted run from a fresh validator, every returned `Pos`
carries a depth that is at most the capacity 12 (and at least 0, since it
is a `Nat`), and equals the number of currently-open frames at its
transition: opening events seen so far minus closing events seen so far. -/
theorem C5_pos_depth (evs : List Event) (t : Stack) (ps : List Pos)
    (hrun : Stack.runPos Stack.new evs = some (t, ps)) :
    (∀ p ∈ ps, p.d ≤ 12) ∧ ps.length = evs.length ∧
      ∀ i, i < evs.length →
        (ps.getD i ⟨0, 0⟩).d + closeCount (evs.take (i + 1)) =
          openCount (evs.take (i + 1)) := by
  obtain ⟨_, hlen, hmem, hidx⟩ := runPos_spec INV_new hrun
  refine ⟨hmem, hlen, ?_⟩
  intro i hi
  have hx := hidx i hi
  simpa [Stack.new] using hx

/-- Witness for C5: a singleton sequence holding one primitive. -/
theorem C5_pos_depth_witness :
    (∀ p ∈ [(⟨8, 1⟩ : Pos), ⟨9, 1⟩, ⟨8, 1⟩, ⟨0, 0⟩], p.d ≤ 12) ∧
      ([(⟨8, 1⟩ : Pos), ⟨9, 1⟩, ⟨8, 1⟩, ⟨0, 0⟩].length =
        [Event.seq_begin, Event.seq_elem, Event.primitive, Event.seq_end].length) ∧
      ∀ i, i < [Event.seq_begin, Event.seq_elem, Event.primitive, Event.seq_end].length →
        (([(⟨8, 1⟩ : Pos), ⟨9, 1⟩, ⟨8, 1⟩, ⟨0, 0⟩].getD i ⟨0, 0⟩).d +
            closeCount ([Event.seq_begin, Event.seq_elem, Event.primitive,
              Event.seq_end].take (i + 1))) =
          openCount ([Event.seq_begin, Event.seq_elem, Event.primitive,
            Event.seq_end].take (i + 1)) :=
  C5_pos_depth [Event.seq_begin, Event.seq_elem, Event.primitive, Event.seq_end]
    ⟨0, 0⟩ [⟨8, 1⟩, ⟨9, 1⟩, ⟨8, 1⟩, ⟨0, 0⟩] (by decide)

/-- C6: `clear` overwrites the receiver with `Stack::new()`, so a cleared
validator is the fresh state itself and its observable behaviour on any
subsequent event sequence coincides with a fresh validator's. -/
theorem C6_clear_fresh :
    (∀ s : Stack, s.clear = Stack.new) ∧
      ∀ (s : Stack) (evs : List Event), (s.clear).runPos evs = Stack.new.runPos evs :=
  ⟨fun _ => rfl, fun _ _ => rfl⟩

/-- C7: a rejected operation leaves the state unchanged, so repeating the
same call produces the same rejection with the identical expectation
message; this holds for the eight structural events and for `end`. -/
theorem C7_rejection_idempotent :
    (∀ (s s₁ : Stack) (e : Event) (err : Error),
      s.step e = (Except.error err, s₁) → s₁.step e = (Except.error err, s₁)) ∧
      ∀ (s s₁ : Stack) (err : Error),
        s.«end» = (Except.error err, s₁) → s₁.«end» = (Except.error err, s₁) := by
  constructor
  · intro s s₁ e err h
    have hs := step_error_state h
    subst hs
    exact h
  · intro s s₁ err h
    have hs := end_error_state h
    subst hs
    exact h

/-- Witness for C7: `map_key` on a fresh validator is rejected, and
repeating it is rejected with the same message. -/
theorem C7_rejection_idempotent_witness :
    Stack.step Stack.new .map_key = (Except.error (Error.custom ("a map key")), Stack.new) ∧
      Stack.step Stack.new .map_key = (Except.error (Error.custom ("a map key")), Stack.new) :=
  ⟨by decide, C7_rejection_idempotent.1 Stack.new Stack.new .map_key _ (by decide)⟩

/-- C8: `Pos::is_empty_map` and `Pos::is_empty_seq` are `unimplemented!()`
stubs: modelling the unconditional panic as `none`, neither call returns a
boolean on any position. -/
theorem C8_is_empty_stubs :
    ∀ p : Pos, p.is_empty_map = none ∧ p.is_empty_seq = none :=
  fun _ => ⟨rfl, rfl⟩

/-- C9: every rejected operation — protocol violations and depth-exceeded
rejections alike — leaves the packed state and the depth counter exactly
unchanged, for the eight structural events and for `end`. -/
theorem C9_error_atomic :
    (∀ (s : Stack) (e : Event) (err : Error) (s₁ : Stack),
      s.step e = (Except.error err, s₁) → s₁ = s) ∧
      ∀ (s : Stack) (err : Error) (s₁ : Stack),
        s.«end» = (Except.error err, s₁) → s₁ = s :=
  ⟨fun _ _ _ _ h => step_error_state h, fun _ _ _ h => end_error_state h⟩

/-- Witness for C9: a depth-exceeded `map_begin` at depth 12 leaves the
state `⟨9, 12⟩` unchanged. -/
theorem C9_error_atomic_witness : (⟨9, 12⟩ : Stack) = ⟨9, 12⟩ :=
  C9_error_atomic.1 ⟨9, 12⟩ .map_begin
    (Error.custom ("more depth at the start of a map")) ⟨9, 12⟩ (by decide)

/-- C10: after a complete root item (any grammar item within capacity) has
been produced on a fresh validator, the depth is back to 0 with the root
obligation consumed, and every further `primitive`, `map_begin` and
`seq_begin` is rejected, until `clear` restores acceptance. -/
theorem C10_single_root_item (it : Item) (h : it.nest ≤ 12) :
    ∃ t : Stack, Stack.runAll Stack.new it.events = some t ∧
      t.primitive.1 = Except.error (Error.custom ("a primitive")) ∧
      t.map_begin.1 = Except.error (Error.custom ("the start of a map")) ∧
      t.seq_begin.1 = Except.error (Error.custom ("the start of a sequence")) ∧
      t.clear.primitive.1.isOk = true := by
  refine ⟨⟨0, 0⟩, ?_, by decide, by decide, by decide, by decide⟩
  have hr := replay_item it 1 0 rfl (by norm_num) (by omega)
  simpa using hr

/-- Witness for C10: a single primitive as the root item. -/
theorem C10_single_root_item_witness :
    Item.prim.nest ≤ 12 ∧
      ∃ t : Stack, Stack.runAll Stack.new Item.prim.events = some t ∧
        t.primitive.1 = Except.error (Error.custom ("a primitive")) ∧
        t.map_begin.1 = Except.error (Error.custom ("the start of a map")) ∧
        t.seq_begin.1 = Except.error (Error.custom ("the start of a sequence")) ∧
        t.clear.primitive.1.isOk = true :=
  ⟨by decide, C10_single_root_item _ (by decide)⟩

end Sval
